/-
Verification of the SkyLine footprint bookkeeping and greedy mosaic algorithm
(lib/skyline.py of the stsci_sphere repository).

The geometry library (SphericalPolygon) is an external collaborator for this
module, so the embedding is parametric in a type `P` of polygon values and a
record `SphereOps P` of the geometry operations the skyline code calls.
Intersection and union are `Except`-valued: `.error ()` models the
ValueError/AssertionError a degenerate geometry can raise; areas are rational
numbers standing in for the non-negative floats of the source.

Python objects compare with `==`, which for `SkyLineMember` and `SkyLine`
(neither defines `__eq__`) is object identity.  A `Member` therefore carries
an `oid` field: distinct live objects get distinct `oid`s, so structural
equality of the Lean record coincides with Python's identity comparison.

`SKYLINE_DEBUG` (a module-level flag in the source) is passed explicitly as
the `debug : Bool` argument of every operation that reads it.
-/
import Mathlib

namespace Skyline

/-- Embeds `SkyLineMember`: `fname` the image name, `ext` the extension
tuple, `polygon` the derived footprint.  `oid` models Python object identity
(no `__eq__` is defined in the source, so `==` compares identity). -/
structure Member (P : Type) where
  oid : Nat
  fname : String
  ext : List Nat
  polygon : P
deriving DecidableEq

/-- Embeds a `SkyLine` instance: the composite `polygon` and the `members`
list (always stored through the deduplicating setter below). -/
structure SkyLine (P : Type) where
  polygon : P
  members : List (Member P)
deriving DecidableEq

/-- Interface of the `SphericalPolygon` geometry collaborator, as consumed by
skyline.py: `intersection`, `union` (both may raise for degenerate inputs,
modelled by `Except`), `area`, `intersects_poly`, and the `points` attribute
tested for non-emptiness in `_find_members`. -/
structure SphereOps (P : Type) where
  intersectionOp : P → P → Except Unit P
  unionOp : P → P → Except Unit P
  areaOp : P → ℚ
  intersectsPolyOp : P → P → Bool
  hasPointsOp : P → Bool

/-- Value fed to the `members` setter: either a genuine `SkyLineMember` or
some other Python object (which makes the setter's `assert` fire). -/
inductive MemberArg (P : Type) where
  | member : Member P → MemberArg P
  | nonMember : MemberArg P
deriving DecidableEq

variable {P : Type} [DecidableEq P]

/-- Loop of the `members` setter: walk `values` in order, assert each element
is a `SkyLineMember`, and append it to the accumulator unless an equal (`==`,
i.e. identical) member was already appended. -/
def setMembersLoop : List (MemberArg P) → List (Member P) → Except Unit (List (Member P))
  | [], acc => .ok acc
  | .member m :: rest, acc =>
      if m ∈ acc then setMembersLoop rest acc else setMembersLoop rest (acc ++ [m])
  | .nonMember :: _, _ => .error ()

/-- The `members` setter applied to a raw sequence of Python values. -/
def setMembersChecked (values : List (MemberArg P)) : Except Unit (List (Member P)) :=
  setMembersLoop values []

/-- Same loop restricted to inputs that are all members (the `assert` can
never fire), as used by `add_image` and `find_intersection`. -/
def setMembersAux : List (Member P) → List (Member P) → List (Member P)
  | [], acc => acc
  | m :: rest, acc =>
      if m ∈ acc then setMembersAux rest acc else setMembersAux rest (acc ++ [m])

/-- The `members` setter on a list of members. -/
def setMembers (values : List (Member P)) : List (Member P) :=
  setMembersAux values []

/-- Embeds `SkyLine._rough_id`: the first member's file name, `None` when the
member list is empty. -/
def rough_id (s : SkyLine P) : Option String :=
  match s.members with
  | [] => none
  | m :: _ => some m.fname

/-- Embeds `SkyLine.add_image`: a fresh `SkyLine` whose polygon is the
geometry union (its failure propagates) and whose members are the setter
applied to `self.members + other.members`. -/
def add_image (ops : SphereOps P) (s other : SkyLine P) : Except Unit (SkyLine P) :=
  match ops.unionOp s.polygon other.polygon with
  | .error e => .error e
  | .ok p => .ok ⟨p, setMembers (s.members ++ other.members)⟩

/-- Embeds `SkyLine._find_members`: if the receiver's polygon has points,
keep the given members whose own polygon intersects it, else keep none. -/
def find_members (ops : SphereOps P) (s : SkyLine P) (given : List (Member P)) :
    List (Member P) :=
  if ops.hasPointsOp s.polygon then
    given.filter (fun m => ops.intersectsPolyOp s.polygon m.polygon)
  else []

/-- Embeds `SkyLine.find_intersection`: a fresh `SkyLine` whose polygon is
the geometry intersection, with members filtered by `_find_members` against
that result polygon and stored through the setter. -/
def find_intersection (ops : SphereOps P) (s other : SkyLine P) : Except Unit (SkyLine P) :=
  match ops.intersectionOp s.polygon other.polygon with
  | .error e => .error e
  | .ok p =>
      .ok ⟨p, setMembers (find_members ops ⟨p, []⟩ (s.members ++ other.members))⟩

/-- Loop of `SkyLine.find_max_overlap` over the candidate list, carrying the
running `(max_skyline, max_overlap_area)` pair.  A failing intersection is
treated as area `0.0` when `debug` is on, and propagates otherwise. -/
def find_max_overlap_go (ops : SphereOps P) (debug : Bool) (sp : P) :
    List (SkyLine P) → Option (SkyLine P) → ℚ → Except Unit (Option (SkyLine P) × ℚ)
  | [], best, maxA => .ok (best, maxA)
  | t :: ts, best, maxA =>
      match ops.intersectionOp sp t.polygon with
      | .ok p =>
          if ops.areaOp p > maxA then
            find_max_overlap_go ops debug sp ts (some t) (ops.areaOp p)
          else
            find_max_overlap_go ops debug sp ts best maxA
      | .error e =>
          if debug then find_max_overlap_go ops debug sp ts best maxA
          else .error e

/-- Embeds `SkyLine.find_max_overlap`: starts from `(None, 0.0)` and scans
the candidates in order, keeping a candidate only when its overlap area is
strictly greater than the running maximum. -/
def find_max_overlap (ops : SphereOps P) (debug : Bool) (s : SkyLine P)
    (skylines : List (SkyLine P)) : Except Unit (Option (SkyLine P) × ℚ) :=
  find_max_overlap_go ops debug s.polygon skylines none 0

/-- Loop of `SkyLine.max_overlap_pair`: for each index `i` up to
`len(skylines) - 2` (the last element gets no iteration, matching
`xrange(len(skylines) - 1)`), scan the suffix with `find_max_overlap` and
keep the globally best `(curr_s, next_s)` pair under strict `>`. -/
def max_overlap_pair_go (ops : SphereOps P) (debug : Bool) :
    List (SkyLine P) → Option (SkyLine P × Option (SkyLine P)) → ℚ →
      Except Unit (Option (SkyLine P × Option (SkyLine P)))
  | [], best, _ => .ok best
  | [_], best, _ => .ok best
  | curr :: next :: rest, best, maxA =>
      match find_max_overlap ops debug curr (next :: rest) with
      | .error e => .error e
      | .ok (next_s, i_area) =>
          if i_area > maxA then
            max_overlap_pair_go ops debug (next :: rest) (some (curr, next_s)) i_area
          else
            max_overlap_pair_go ops debug (next :: rest) best maxA

/-- Embeds the static `SkyLine.max_overlap_pair`. -/
def max_overlap_pair (ops : SphereOps P) (debug : Bool) (skylines : List (SkyLine P)) :
    Except Unit (Option (SkyLine P × Option (SkyLine P))) :=
  max_overlap_pair_go ops debug skylines none 0

/-- Growing loop of `SkyLine.mosaic` (`while len(remaining) > 0`).  Each pass
finds the best-overlapping remaining skyline; `None` excludes everything left
and stops; otherwise `add_image` is attempted, a failure excluding the
candidate (in debug mode) or aborting (otherwise), and the candidate is
removed from the pool in every case (the `finally` clause).  The membership
test guarding the recursive calls only serves the termination argument; it
always succeeds (`find_max_overlap` returns an element of its candidate
list, proved below), so the final `else` branch is unreachable. -/
def mosaicLoop (ops : SphereOps P) (debug : Bool) :
    List (SkyLine P) → SkyLine P → List (Option String) → List (Option String) →
      Except Unit (SkyLine P × List (Option String) × List (Option String))
  | [], mos, oo, exc => .ok (mos, oo, exc)
  | r :: rs, mos, oo, exc =>
      match find_max_overlap ops debug mos (r :: rs) with
      | .error e => .error e
      | .ok (none, _) => .ok (mos, oo, exc ++ (r :: rs).map rough_id)
      | .ok (some next, _) =>
          if hmem : next ∈ r :: rs then
            match add_image ops mos next with
            | .error e =>
                if debug then
                  mosaicLoop ops debug ((r :: rs).erase next) mos oo (exc ++ [rough_id next])
                else .error e
            | .ok newmos =>
                mosaicLoop ops debug ((r :: rs).erase next) newmos (oo ++ [rough_id next]) exc
          else .ok (mos, oo, exc)
termination_by rem _ _ _ => rem.length
decreasing_by
  all_goals
    simp only [List.length_erase_of_mem hmem, List.length_cons]
    omega

/-- Number of executions of the growing-loop body, mirroring the recursion
structure of `mosaicLoop` (identifier lists do not influence control flow,
so they are dropped). -/
def mosaicLoopCount (ops : SphereOps P) (debug : Bool) :
    List (SkyLine P) → SkyLine P → Nat
  | [], _ => 0
  | r :: rs, mos =>
      match find_max_overlap ops debug mos (r :: rs) with
      | .error _ => 1
      | .ok (none, _) => 1
      | .ok (some next, _) =>
          if hmem : next ∈ r :: rs then
            match add_image ops mos next with
            | .error _ =>
                if debug then 1 + mosaicLoopCount ops debug ((r :: rs).erase next) mos
                else 1
            | .ok newmos => 1 + mosaicLoopCount ops debug ((r :: rs).erase next) newmos
          else 1
termination_by rem _ => rem.length
decreasing_by
  all_goals
    simp only [List.length_erase_of_mem hmem, List.length_cons]
    omega

/-- Embeds the classmethod `SkyLine.mosaic`.  The `some (s1, none)` branch
corresponds to a Python state that would crash (`add_image(None)`); it is
unreachable (`max_overlap_pair` never pairs a skyline with `None`, proved
below), and modelled as an error. -/
def mosaic (ops : SphereOps P) (debug : Bool) (skylines : List (SkyLine P)) :
    Except Unit (Option (SkyLine P) × List (Option String) × List (Option String)) :=
  match max_overlap_pair ops debug skylines with
  | .error e => .error e
  | .ok none => .ok (none, [], [])
  | .ok (some (_, none)) => .error ()
  | .ok (some (s1, some s2)) =>
      match add_image ops s1 s2 with
      | .error e => .error e
      | .ok mos =>
          match mosaicLoop ops debug ((skylines.erase s1).erase s2) mos
              [rough_id s1, rough_id s2] [] with
          | .error e => .error e
          | .ok (m, oo, exc) => .ok (some m, oo, exc)

/-- Area of the intersection of two polygon values, `0` when the geometry
operation fails.  Used only to state geometric hypotheses of the theorems. -/
def interArea (ops : SphereOps P) (a b : P) : ℚ :=
  match ops.intersectionOp a b with
  | .ok p => ops.areaOp p
  | .error _ => 0

/-- Whether an `Except` value is a success.  Used only in hypotheses. -/
def isOkE {ε α : Type} : Except ε α → Bool
  | .ok _ => true
  | .error _ => false

instance exceptDecEq {ε α : Type} [DecidableEq ε] [DecidableEq α] :
    DecidableEq (Except ε α) := fun x y =>
  match x, y with
  | .ok a, .ok b => decidable_of_iff (a = b) (by simp)
  | .error a, .error b => decidable_of_iff (a = b) (by simp)
  | .ok _, .error _ => isFalse (by simp)
  | .error _, .ok _ => isFalse (by simp)

/-- Modelled from the spec: value equality of two members (`source_id`,
`region_selectors` and derived geometry match, object identity ignored).
The repository's polygon module is not under src/, and `SkyLineMember`
itself defines no `__eq__`; this definition follows the wording of the
spec's Member-equality clause. -/
def memberValueEq (m1 m2 : Member P) : Prop :=
  m1.fname = m2.fname ∧ m1.ext = m2.ext ∧ m1.polygon = m2.polygon

instance (m1 m2 : Member P) : Decidable (memberValueEq m1 m2) := by
  unfold memberValueEq
  infer_instance

/-- Modelled from the spec: a store of mutable `SphericalPolygon` objects,
addressed by natural numbers (the polygon module itself is not under src/,
so its object/copy semantics are taken from the spec's copy-on-write
clause).  `nextAddr` is the next fresh address. -/
structure PolyStore (V : Type) where
  nextAddr : ℕ
  val : ℕ → Option V

/-- Value fed to the `polygon` setter: the address of a `SphericalPolygon`
object, or some other Python value (making the setter's `assert` fire). -/
inductive PolyArg where
  | polyAddr : ℕ → PolyArg
  | nonPoly : PolyArg
deriving DecidableEq

/-- Embeds the `polygon` setter over the store model: assert the value is a
polygon, then store `copy(value)` — a fresh object holding the same
geometric value.  Returns the updated store and the address the skyline now
holds. -/
def polygonSetter (V : Type) (h : PolyStore V) : PolyArg → Except Unit (PolyStore V × ℕ)
  | .nonPoly => .error ()
  | .polyAddr a =>
      .ok (⟨h.nextAddr + 1, fun n => if n = h.nextAddr then h.val a else h.val n⟩, h.nextAddr)

/-- Modelled from the spec: in-place mutation of the polygon object at
address `a` (the "independent mutation" of the spec's testable property). -/
def mutateAt (V : Type) (h : PolyStore V) (a : ℕ) (w : V) : PolyStore V :=
  ⟨h.nextAddr, fun n => if n = a then some w else h.val n⟩

/-- Concrete geometry used by the witnesses: a polygon is `some` finite set
of points (intersection, union, area and the predicates are the set-theoretic
ones) or `none`, a corrupt polygon on which intersection and union raise. -/
abbrev FP : Type := Option (Finset ℕ)

/-- The concrete `SphereOps` instance on `FP`. -/
def finOps : SphereOps FP where
  intersectionOp a b :=
    match a, b with
    | some x, some y => .ok (some (x ∩ y))
    | _, _ => .error ()
  unionOp a b :=
    match a, b with
    | some x, some y => .ok (some (x ∪ y))
    | _, _ => .error ()
  areaOp a :=
    match a with
    | some x => (x.card : ℚ)
    | none => 0
  intersectsPolyOp a b :=
    match a, b with
    | some x, some y => decide (x ∩ y).Nonempty
    | _, _ => false
  hasPointsOp a :=
    match a with
    | some x => decide x.Nonempty
    | none => false

instance : DecidableEq (Except Unit (Option (SkyLine FP × Option (SkyLine FP)))) :=
  @exceptDecEq Unit (Option (SkyLine FP × Option (SkyLine FP))) inferInstance inferInstance

/-- Variant of `finOps` whose union always raises, exercising the growing
loop's error recovery. -/
def finOpsU : SphereOps FP :=
  { finOps with unionOp := fun _ _ => .error () }

/-- Builder for a one-member concrete skyline. -/
def mkSky (oid : ℕ) (nm : String) (pts : Finset ℕ) : SkyLine FP :=
  ⟨some pts, [⟨oid, nm, [1], some pts⟩]⟩

/-- Three pairwise-disjoint concrete skylines. -/
def dA : SkyLine FP := mkSky 1 "da.fits" {0}
/-- Second disjoint skyline. -/
def dB : SkyLine FP := mkSky 2 "db.fits" {1}
/-- Third disjoint skyline. -/
def dC : SkyLine FP := mkSky 3 "dc.fits" {2}

/-- Overlapping seed pair member: `{0, 1}`. -/
def oA : SkyLine FP := mkSky 4 "oa.fits" {0, 1}
/-- Overlapping seed pair member: `{1, 2}`. -/
def oB : SkyLine FP := mkSky 5 "ob.fits" {1, 2}
/-- Skyline disjoint from everything else: `{9}`. -/
def oC : SkyLine FP := mkSky 6 "oc.fits" {9}

/-- Reference skyline for the tie-policy witness, footprint `{0, ..., 9}`. -/
def tS : SkyLine FP := mkSky 7 "ts.fits" {0, 1, 2, 3, 4, 5, 6, 7, 8, 9}
/-- Candidate with overlap area 5 (first). -/
def t1 : SkyLine FP := mkSky 8 "t1.fits" {0, 1, 2, 3, 4}
/-- Candidate with overlap area 5 (second). -/
def t2 : SkyLine FP := mkSky 9 "t2.fits" {0, 1, 2, 3, 5}
/-- Candidate with overlap area 3. -/
def t3 : SkyLine FP := mkSky 10 "t3.fits" {0, 1, 6}

/-- Skyline with a corrupt polygon: geometry operations on it raise. -/
def sBad : SkyLine FP := ⟨none, [⟨11, "bad.fits", [1], none⟩]⟩

/-- Two members that are value-equal (same file, extensions and geometry)
but are distinct objects: Python's identity-based `==` does not deduplicate
them. -/
def mV0 : Member FP := ⟨20, "dup.fits", [1], some {0}⟩
/-- Second member with the same value but a different identity. -/
def mV1 : Member FP := ⟨21, "dup.fits", [1], some {0}⟩

/-- Distinct members for the dedup-order witness. -/
def mW0 : Member FP := ⟨30, "w0.fits", [1], some {0}⟩
/-- Second witness member. -/
def mW1 : Member FP := ⟨31, "w1.fits", [1], some {1}⟩
/-- Third witness member. -/
def mW2 : Member FP := ⟨32, "w2.fits", [1], some {2}⟩

/-- Skyline carrying `mV0`, for the identity-vs-value dedup counterexample. -/
def vA : SkyLine FP := ⟨some {0, 1}, [mV0]⟩
/-- Skyline carrying `mV1`, value-equal to `vA`'s member. -/
def vB : SkyLine FP := ⟨some {1, 2}, [mV1]⟩

/-- The mosaic produced from `oA` and `oB`. -/
def mosM : SkyLine FP :=
  ⟨some {0, 1, 2}, [⟨4, "oa.fits", [1], some {0, 1}⟩, ⟨5, "ob.fits", [1], some {1, 2}⟩]⟩

/-- Concrete polygon store for the defensive-copy witness: one object at
address 0 with value 5. -/
def st0 : PolyStore ℕ := ⟨1, fun n => if n = 0 then some 5 else none⟩

/-- Store after the `polygon` setter copied the object at address 0. -/
def st1 : PolyStore ℕ := ⟨2, fun n => if n = 1 then st0.val 0 else st0.val n⟩

/-! Helper lemmas about the members setter. -/

theorem mem_setMembersAux (l acc : List (Member P)) (x : Member P) :
    x ∈ setMembersAux l acc ↔ x ∈ acc ∨ x ∈ l := by
  induction l generalizing acc with
  | nil => simp [setMembersAux]
  | cons m rest ih =>
    simp only [setMembersAux, List.mem_cons]
    by_cases hm : m ∈ acc
    · rw [if_pos hm, ih]
      constructor
      · rintro (h | h)
        · exact Or.inl h
        · exact Or.inr (Or.inr h)
      · rintro (h | rfl | h)
        · exact Or.inl h
        · exact Or.inl hm
        · exact Or.inr h
    · rw [if_neg hm, ih]
      simp only [List.mem_append, List.mem_singleton]
      tauto

theorem nodup_setMembersAux (l : List (Member P)) :
    ∀ acc : List (Member P), acc.Nodup → (setMembersAux l acc).Nodup := by
  induction l with
  | nil => intro acc h; simpa [setMembersAux] using h
  | cons m rest ih =>
    intro acc h
    simp only [setMembersAux]
    by_cases hm : m ∈ acc
    · rw [if_pos hm]; exact ih acc h
    · rw [if_neg hm]
      exact ih _ (by simp [List.nodup_append, h, hm])

theorem setMembersAux_decomp (l : List (Member P)) :
    ∀ acc : List (Member P), ∃ t, setMembersAux l acc = acc ++ t ∧ t.Sublist l := by
  induction l with
  | nil => intro acc; exact ⟨[], by simp [setMembersAux], List.nil_sublist _⟩
  | cons m rest ih =>
    intro acc
    simp only [setMembersAux]
    by_cases hm : m ∈ acc
    · rw [if_pos hm]
      obtain ⟨t, h1, h2⟩ := ih acc
      exact ⟨t, h1, h2.trans (List.sublist_cons_self m rest)⟩
    · rw [if_neg hm]
      obtain ⟨t, h1, h2⟩ := ih (acc ++ [m])
      exact ⟨m :: t, by simpa using h1, h2.cons₂ m⟩

theorem setMembers_nodup (l : List (Member P)) : (setMembers l).Nodup :=
  nodup_setMembersAux l [] List.nodup_nil

theorem setMembers_sublist (l : List (Member P)) : (setMembers l).Sublist l := by
  obtain ⟨t, h1, h2⟩ := setMembersAux_decomp l []
  simpa [setMembers, h1] using h2

theorem mem_setMembers (l : List (Member P)) (x : Member P) :
    x ∈ setMembers l ↔ x ∈ l := by
  simpa [setMembers] using mem_setMembersAux l [] x

theorem setMembersLoop_map_member (l : List (Member P)) :
    ∀ acc : List (Member P),
      setMembersLoop (l.map MemberArg.member) acc = .ok (setMembersAux l acc) := by
  induction l with
  | nil => intro acc; rfl
  | cons m rest ih =>
    intro acc
    simp only [List.map_cons, setMembersLoop, setMembersAux]
    by_cases hm : m ∈ acc
    · rw [if_pos hm, if_pos hm, ih]
    · rw [if_neg hm, if_neg hm, ih]

theorem setMembersLoop_error (l : List (MemberArg P)) :
    ∀ acc : List (Member P), MemberArg.nonMember ∈ l →
      setMembersLoop l acc = .error () := by
  induction l with
  | nil => intro acc h; cases h
  | cons v rest ih =>
    intro acc h
    cases v with
    | nonMember => rfl
    | member m =>
      have h' : MemberArg.nonMember ∈ rest := by simpa using h
      simp only [setMembersLoop]
      by_cases hm : m ∈ acc
      · rw [if_pos hm]; exact ih _ h'
      · rw [if_neg hm]; exact ih _ h'

/-! Helper lemmas about the overlap scan `find_max_overlap`. -/

theorem find_max_overlap_go_mem (ops : SphereOps P) (debug : Bool) (sp : P) :
    ∀ (l : List (SkyLine P)) (best : Option (SkyLine P)) (maxA : ℚ)
      (x : Option (SkyLine P)) (ar : ℚ),
      find_max_overlap_go ops debug sp l best maxA = .ok (x, ar) →
      x = best ∨ ∃ t, t ∈ l ∧ x = some t := by
  intro l
  induction l with
  | nil =>
    intro best maxA x ar h
    simp only [find_max_overlap_go, Except.ok.injEq, Prod.mk.injEq] at h
    exact Or.inl h.1.symm
  | cons t ts ih =>
    intro best maxA x ar h
    cases hi : ops.intersectionOp sp t.polygon with
    | ok p =>
      simp only [find_max_overlap_go, hi] at h
      by_cases hgt : ops.areaOp p > maxA
      · rw [if_pos hgt] at h
        rcases ih _ _ _ _ h with h1 | ⟨u, hu, hx⟩
        · exact Or.inr ⟨t, List.mem_cons_self t ts, h1⟩
        · exact Or.inr ⟨u, List.mem_cons_of_mem _ hu, hx⟩
      · rw [if_neg hgt] at h
        rcases ih _ _ _ _ h with h1 | ⟨u, hu, hx⟩
        · exact Or.inl h1
        · exact Or.inr ⟨u, List.mem_cons_of_mem _ hu, hx⟩
    | error e =>
      simp only [find_max_overlap_go, hi] at h
      by_cases hd : debug
      · rw [if_pos hd] at h
        rcases ih _ _ _ _ h with h1 | ⟨u, hu, hx⟩
        · exact Or.inl h1
        · exact Or.inr ⟨u, List.mem_cons_of_mem _ hu, hx⟩
      · rw [if_neg hd] at h
        cases h

theorem find_max_overlap_mem {ops : SphereOps P} {debug : Bool} {s : SkyLine P}
    {l : List (SkyLine P)} {next : SkyLine P} {ar : ℚ}
    (h : find_max_overlap ops debug s l = .ok (some next, ar)) : next ∈ l := by
  rcases find_max_overlap_go_mem ops debug s.polygon l none 0 (some next) ar h with
    h1 | ⟨t, ht, hx⟩
  · cases h1
  · injection hx with hx; exact hx ▸ ht

theorem find_max_overlap_go_max (ops : SphereOps P) (debug : Bool) (sp : P) :
    ∀ (l : List (SkyLine P)) (best : Option (SkyLine P)) (maxA : ℚ),
      (∀ t ∈ l, isOkE (ops.intersectionOp sp t.polygon) = true) → 0 ≤ maxA →
      ∃ x ar, find_max_overlap_go ops debug sp l best maxA = .ok (x, ar) ∧
        maxA ≤ ar ∧ (∀ t ∈ l, interArea ops sp t.polygon ≤ ar) ∧
        ((x = best ∧ ar = maxA) ∨
          ∃ t ∈ l, x = some t ∧ ar = interArea ops sp t.polygon ∧ maxA < ar) := by
  intro l
  induction l with
  | nil =>
    intro best maxA _ _
    exact ⟨best, maxA, rfl, le_refl _, by simp, Or.inl ⟨rfl, rfl⟩⟩
  | cons t ts ih =>
    intro best maxA hok h0
    have hokt : isOkE (ops.intersectionOp sp t.polygon) = true :=
      hok t (List.mem_cons_self t ts)
    obtain ⟨p, hi⟩ : ∃ p, ops.intersectionOp sp t.polygon = .ok p := by
      cases hi : ops.intersectionOp sp t.polygon with
      | ok p => exact ⟨p, rfl⟩
      | error e => rw [hi] at hokt; simp [isOkE] at hokt
    have hiA : interArea ops sp t.polygon = ops.areaOp p := by simp [interArea, hi]
    have hok' : ∀ u ∈ ts, isOkE (ops.intersectionOp sp u.polygon) = true :=
      fun u hu => hok u (List.mem_cons_of_mem _ hu)
    by_cases hgt : ops.areaOp p > maxA
    · obtain ⟨x, ar, heq, hle, hall, hcase⟩ :=
        ih (some t) (ops.areaOp p) hok' (le_of_lt (lt_of_le_of_lt h0 hgt))
      refine ⟨x, ar, ?_, le_of_lt (lt_of_lt_of_le hgt hle), ?_, ?_⟩
      · simp only [find_max_overlap_go, hi, if_pos hgt]; exact heq
      · intro u hu
        rcases List.mem_cons.mp hu with rfl | hu'
        · exact hiA ▸ hle
        · exact hall u hu'
      · rcases hcase with ⟨hx, har⟩ | ⟨u, hu, hx, har, hlt⟩
        · exact Or.inr ⟨t, List.mem_cons_self t ts, hx, by rw [har, hiA], har ▸ hgt⟩
        · exact Or.inr ⟨u, List.mem_cons_of_mem _ hu, hx, har,
            lt_trans hgt hlt⟩
    · obtain ⟨x, ar, heq, hle, hall, hcase⟩ := ih best maxA hok' h0
      refine ⟨x, ar, ?_, hle, ?_, ?_⟩
      · simp only [find_max_overlap_go, hi, if_neg hgt]; exact heq
      · intro u hu
        rcases List.mem_cons.mp hu with rfl | hu'
        · exact hiA ▸ le_trans (not_lt.mp hgt) hle
        · exact hall u hu'
      · rcases hcase with ⟨hx, har⟩ | ⟨u, hu, hx, har, hlt⟩
        · exact Or.inl ⟨hx, har⟩
        · exact Or.inr ⟨u, List.mem_cons_of_mem _ hu, hx, har, hlt⟩

theorem find_max_overlap_go_stay (ops : SphereOps P) (debug : Bool) (sp : P)
    (l : List (SkyLine P)) (best : Option (SkyLine P)) (maxA : ℚ)
    (hok : ∀ t ∈ l, isOkE (ops.intersectionOp sp t.polygon) = true) (h0 : 0 ≤ maxA)
    (hle : ∀ t ∈ l, interArea ops sp t.polygon ≤ maxA) :
    find_max_overlap_go ops debug sp l best maxA = .ok (best, maxA) := by
  obtain ⟨x, ar, heq, _, _, hcase⟩ := find_max_overlap_go_max ops debug sp l best maxA hok h0
  rcases hcase with ⟨hx, har⟩ | ⟨t, ht, _, har, hlt⟩
  · rw [heq, hx, har]
  · exact absurd hlt (not_lt.mpr (har ▸ hle t ht))

theorem find_max_overlap_go_first (ops : SphereOps P) (debug : Bool) (sp : P)
    (c : SkyLine P) (l2 : List (SkyLine P))
    (hc : isOkE (ops.intersectionOp sp c.polygon) = true)
    (hok2 : ∀ t ∈ l2, isOkE (ops.intersectionOp sp t.polygon) = true)
    (hle2 : ∀ t ∈ l2, interArea ops sp t.polygon ≤ interArea ops sp c.polygon) :
    ∀ (l1 : List (SkyLine P)) (best : Option (SkyLine P)) (maxA : ℚ),
      0 ≤ maxA → maxA < interArea ops sp c.polygon →
      (∀ t ∈ l1, isOkE (ops.intersectionOp sp t.polygon) = true) →
      (∀ t ∈ l1, interArea ops sp t.polygon < interArea ops sp c.polygon) →
      find_max_overlap_go ops debug sp (l1 ++ c :: l2) best maxA =
        .ok (some c, interArea ops sp c.polygon) := by
  obtain ⟨p, hi⟩ : ∃ p, ops.intersectionOp sp c.polygon = .ok p := by
    cases hi : ops.intersectionOp sp c.polygon with
    | ok p => exact ⟨p, rfl⟩
    | error e => rw [hi] at hc; simp [isOkE] at hc
  have hiA : interArea ops sp c.polygon = ops.areaOp p := by simp [interArea, hi]
  intro l1
  induction l1 with
  | nil =>
    intro best maxA h0 hlt _ _
    have hgt : ops.areaOp p > maxA := hiA ▸ hlt
    simp only [List.nil_append, find_max_overlap_go, hi, if_pos hgt]
    rw [hiA]
    exact find_max_overlap_go_stay ops debug sp l2 (some c) (ops.areaOp p) hok2
      (le_of_lt (lt_of_le_of_lt h0 hgt)) (fun t ht => hiA ▸ hle2 t ht)
  | cons u l1' ih =>
    intro best maxA h0 hlt hok1 hlt1
    have hoku : isOkE (ops.intersectionOp sp u.polygon) = true :=
      hok1 u (List.mem_cons_self u l1')
    obtain ⟨q, hq⟩ : ∃ q, ops.intersectionOp sp u.polygon = .ok q := by
      cases hq : ops.intersectionOp sp u.polygon with
      | ok q => exact ⟨q, rfl⟩
      | error e => rw [hq] at hoku; simp [isOkE] at hoku
    have hqA : interArea ops sp u.polygon = ops.areaOp q := by simp [interArea, hq]
    have hok1' : ∀ t ∈ l1', isOkE (ops.intersectionOp sp t.polygon) = true :=
      fun t ht => hok1 t (List.mem_cons_of_mem _ ht)
    have hlt1' : ∀ t ∈ l1', interArea ops sp t.polygon < interArea ops sp c.polygon :=
      fun t ht => hlt1 t (List.mem_cons_of_mem _ ht)
    simp only [List.cons_append, find_max_overlap_go, hq]
    by_cases hgt : ops.areaOp q > maxA
    · rw [if_pos hgt]
      exact ih (some u) (ops.areaOp q) (le_of_lt (lt_of_le_of_lt h0 hgt))
        (hqA ▸ hlt1 u (List.mem_cons_self u l1')) hok1' hlt1'
    · rw [if_neg hgt]
      exact ih best maxA h0 hlt hok1' hlt1'

theorem find_max_overlap_go_skip (ops : SphereOps P) (sp : P) (t : SkyLine P)
    (he : isOkE (ops.intersectionOp sp t.polygon) = false) :
    ∀ (l1 l2 : List (SkyLine P)) (best : Option (SkyLine P)) (maxA : ℚ),
      find_max_overlap_go ops true sp (l1 ++ t :: l2) best maxA =
        find_max_overlap_go ops true sp (l1 ++ l2) best maxA := by
  obtain ⟨e, hi⟩ : ∃ e, ops.intersectionOp sp t.polygon = .error e := by
    cases hi : ops.intersectionOp sp t.polygon with
    | ok p => rw [hi] at he; simp [isOkE] at he
    | error e => exact ⟨e, rfl⟩
  intro l1
  induction l1 with
  | nil =>
    intro l2 best maxA
    simp only [List.nil_append, find_max_overlap_go, hi]
    simp
  | cons u l1' ih =>
    intro l2 best maxA
    cases hq : ops.intersectionOp sp u.polygon with
    | ok q =>
      simp only [List.cons_append, find_max_overlap_go, hq]
      by_cases hgt : ops.areaOp q > maxA
      · simp only [if_pos hgt]
        exact ih l2 (some u) (ops.areaOp q)
      · simp only [if_neg hgt]
        exact ih l2 best maxA
    | error e' =>
      simp only [List.cons_append, find_max_overlap_go, hq]
      simpa using ih l2 best maxA

theorem find_max_overlap_go_err (ops : SphereOps P) (sp : P) :
    ∀ (l : List (SkyLine P)) (best : Option (SkyLine P)) (maxA : ℚ),
      (∃ t ∈ l, isOkE (ops.intersectionOp sp t.polygon) = false) →
      find_max_overlap_go ops false sp l best maxA = .error () := by
  intro l
  induction l with
  | nil => intro best maxA h; simp at h
  | cons u ts ih =>
    intro best maxA h
    cases hq : ops.intersectionOp sp u.polygon with
    | ok q =>
      have h' : ∃ t ∈ ts, isOkE (ops.intersectionOp sp t.polygon) = false := by
        rcases h with ⟨t, ht, hf⟩
        rcases List.mem_cons.mp ht with rfl | ht'
        · rw [hq] at hf; simp [isOkE] at hf
        · exact ⟨t, ht', hf⟩
      simp only [find_max_overlap_go, hq]
      by_cases hgt : ops.areaOp q > maxA
      · rw [if_pos hgt]; exact ih _ _ h'
      · rw [if_neg hgt]; exact ih _ _ h'
    | error e =>
      simp only [find_max_overlap_go, hq, Bool.false_eq_true, if_false]

/-! Helper lemmas about the pair scan `max_overlap_pair`. -/

theorem max_overlap_pair_go_mem (ops : SphereOps P) (debug : Bool) :
    ∀ (l : List (SkyLine P)) (best : Option (SkyLine P × Option (SkyLine P))) (maxA : ℚ)
      (r : Option (SkyLine P × Option (SkyLine P))),
      max_overlap_pair_go ops debug l best maxA = .ok r →
      r = best ∨ ∃ c ox l1 l2, r = some (c, ox) ∧ l = l1 ++ c :: l2 ∧
        ∀ t, ox = some t → t ∈ l2 := by
  intro l
  induction l with
  | nil =>
    intro best maxA r h
    simp only [max_overlap_pair_go, Except.ok.injEq] at h
    exact Or.inl h.symm
  | cons c tail ih =>
    intro best maxA r h
    cases tail with
    | nil =>
      simp only [max_overlap_pair_go, Except.ok.injEq] at h
      exact Or.inl h.symm
    | cons nx rest =>
      cases hf : find_max_overlap ops debug c (nx :: rest) with
      | error e => simp only [max_overlap_pair_go, hf] at h; cases h
      | ok pair =>
        obtain ⟨ns, ar⟩ := pair
        simp only [max_overlap_pair_go, hf] at h
        by_cases hgt : ar > maxA
        · rw [if_pos hgt] at h
          rcases ih _ _ _ h with h1 | ⟨c', ox', l1', l2', hr, hdec, hmem⟩
          · refine Or.inr ⟨c, ns, [], nx :: rest, h1, rfl, ?_⟩
            intro t ht
            exact find_max_overlap_mem (ht ▸ hf)
          · exact Or.inr ⟨c', ox', c :: l1', l2', hr, by rw [hdec]; rfl, hmem⟩
        · rw [if_neg hgt] at h
          rcases ih _ _ _ h with h1 | ⟨c', ox', l1', l2', hr, hdec, hmem⟩
          · exact Or.inl h1
          · exact Or.inr ⟨c', ox', c :: l1', l2', hr, by rw [hdec]; rfl, hmem⟩

theorem max_overlap_pair_go_stay (ops : SphereOps P) (debug : Bool) :
    ∀ (l : List (SkyLine P)) (best : Option (SkyLine P × Option (SkyLine P))) (maxA : ℚ),
      l.Pairwise (fun c t => isOkE (ops.intersectionOp c.polygon t.polygon) = true) →
      l.Pairwise (fun c t => interArea ops c.polygon t.polygon ≤ maxA) → 0 ≤ maxA →
      max_overlap_pair_go ops debug l best maxA = .ok best := by
  intro l
  induction l with
  | nil => intro best maxA _ _ _; rfl
  | cons c tail ih =>
    intro best maxA hok hle h0
    cases tail with
    | nil => rfl
    | cons nx rest =>
      have hokh : ∀ t ∈ nx :: rest,
          isOkE (ops.intersectionOp c.polygon t.polygon) = true :=
        (List.pairwise_cons.mp hok).1
      have hleh : ∀ t ∈ nx :: rest, interArea ops c.polygon t.polygon ≤ maxA :=
        (List.pairwise_cons.mp hle).1
      obtain ⟨x, ar, heq, _, hall, hcase⟩ :=
        find_max_overlap_go_max ops debug c.polygon (nx :: rest) none 0 hokh (le_refl 0)
      have har : ar ≤ maxA := by
        rcases hcase with ⟨_, har⟩ | ⟨t, ht, _, har, _⟩
        · exact har ▸ h0
        · exact har ▸ hleh t ht
      have hfe : find_max_overlap ops debug c (nx :: rest) = .ok (x, ar) := heq
      simp only [max_overlap_pair_go, hfe, if_neg (not_lt.mpr har)]
      exact ih best maxA (List.pairwise_cons.mp hok).2 (List.pairwise_cons.mp hle).2 h0

theorem max_overlap_pair_go_max (ops : SphereOps P) (debug : Bool) :
    ∀ (l : List (SkyLine P)) (best : Option (SkyLine P × Option (SkyLine P))) (maxA : ℚ),
      l.Pairwise (fun c t => isOkE (ops.intersectionOp c.polygon t.polygon) = true) →
      0 ≤ maxA →
      (max_overlap_pair_go ops debug l best maxA = .ok best ∧
         l.Pairwise (fun c t => interArea ops c.polygon t.polygon ≤ maxA)) ∨
      (∃ A B l1 l2, max_overlap_pair_go ops debug l best maxA = .ok (some (A, some B)) ∧
         l = l1 ++ A :: l2 ∧ B ∈ l2 ∧ maxA < interArea ops A.polygon B.polygon ∧
         l.Pairwise (fun c t =>
           interArea ops c.polygon t.polygon ≤ interArea ops A.polygon B.polygon)) := by
  intro l
  induction l with
  | nil => intro best maxA _ _; exact Or.inl ⟨rfl, List.Pairwise.nil⟩
  | cons c tail ih =>
    intro best maxA hok h0
    cases tail with
    | nil => exact Or.inl ⟨rfl, by simp⟩
    | cons nx rest =>
      have hokh : ∀ t ∈ nx :: rest,
          isOkE (ops.intersectionOp c.polygon t.polygon) = true :=
        (List.pairwise_cons.mp hok).1
      have hokt := (List.pairwise_cons.mp hok).2
      obtain ⟨x, ar, heq, _, hall, hcase⟩ :=
        find_max_overlap_go_max ops debug c.polygon (nx :: rest) none 0 hokh (le_refl 0)
      have hfe : find_max_overlap ops debug c (nx :: rest) = .ok (x, ar) := heq
      by_cases hgt : ar > maxA
      · obtain ⟨B0, hB0, hx, harB, harpos⟩ :
            ∃ t ∈ nx :: rest, x = some t ∧ ar = interArea ops c.polygon t.polygon ∧ 0 < ar := by
          rcases hcase with ⟨_, har⟩ | ⟨t, ht, hx, har, hlt⟩
          · exact absurd (har ▸ hgt) (not_lt.mpr h0)
          · exact ⟨t, ht, hx, har, har ▸ hlt⟩
        subst hx
        simp only [max_overlap_pair_go, hfe, if_pos hgt]
        rcases ih (some (c, some B0)) ar hokt (le_of_lt (lt_of_le_of_lt h0 hgt)) with
          ⟨heq2, hpw⟩ | ⟨A', B', l1', l2', heq2, hdec, hB', hlt', hpw⟩
        · refine Or.inr ⟨c, B0, [], nx :: rest, heq2, rfl, hB0, harB ▸ hgt, ?_⟩
          exact List.pairwise_cons.mpr ⟨fun t ht => harB ▸ hall t ht, harB ▸ hpw⟩
        · refine Or.inr ⟨A', B', c :: l1', l2', heq2, by rw [hdec]; rfl, hB',
            lt_trans hgt hlt', ?_⟩
          refine List.pairwise_cons.mpr ⟨fun t ht => ?_, hpw⟩
          exact le_trans (hall t ht) (le_of_lt hlt')
      · simp only [max_overlap_pair_go, hfe, if_neg hgt]
        have harle : ar ≤ maxA := not_lt.mp hgt
        rcases ih best maxA hokt h0 with
          ⟨heq2, hpw⟩ | ⟨A', B', l1', l2', heq2, hdec, hB', hlt', hpw⟩
        · refine Or.inl ⟨heq2, List.pairwise_cons.mpr ⟨fun t ht => ?_, hpw⟩⟩
          exact le_trans (hall t ht) harle
        · refine Or.inr ⟨A', B', c :: l1', l2', heq2, by rw [hdec]; rfl, hB', hlt', ?_⟩
          refine List.pairwise_cons.mpr ⟨fun t ht => ?_, hpw⟩
          exact le_trans (hall t ht) (le_trans harle (le_of_lt hlt'))

/-! Small list helpers for the erase-based remaining pool. -/

theorem mem_erase_of_post {α : Type} [DecidableEq α] {c t : α} {l1 l2 : List α}
    (ht : t ∈ l2) : t ∈ (l1 ++ c :: l2).erase c := by
  by_cases hc : c ∈ l1
  · rw [List.erase_append_left _ hc]
    exact List.mem_append_right _ (List.mem_cons_of_mem _ ht)
  · rw [List.erase_append_right _ hc, List.erase_cons_head]
    exact List.mem_append_right _ ht

theorem max_overlap_pair_pair_mem {ops : SphereOps P} {debug : Bool}
    {l : List (SkyLine P)} {A : SkyLine P} {oB : Option (SkyLine P)}
    (h : max_overlap_pair ops debug l = .ok (some (A, oB))) :
    A ∈ l ∧ ∀ B, oB = some B → B ∈ l.erase A := by
  rcases max_overlap_pair_go_mem ops debug l none 0 _ h with h1 | ⟨c, ox, l1, l2, hr, hdec, hmem⟩
  · cases h1
  · have hc : c = A ∧ ox = oB := by
      injection hr with hr'
      exact ⟨congrArg Prod.fst hr'.symm, congrArg Prod.snd hr'.symm⟩
    obtain ⟨rfl, rfl⟩ := hc
    subst hdec
    constructor
    · exact List.mem_append_right _ (List.mem_cons_self _ _)
    · intro B hB
      exact mem_erase_of_post (hmem B hB)

/-! Step lemmas for the growing loop, and its bookkeeping invariants. -/

theorem mosaicLoop_nil (ops : SphereOps P) (debug : Bool) (mos : SkyLine P)
    (oo exc : List (Option String)) :
    mosaicLoop ops debug [] mos oo exc = .ok (mos, oo, exc) := by
  rw [mosaicLoop]

theorem mosaicLoop_cons_err (ops : SphereOps P) (debug : Bool) (r : SkyLine P)
    (rs : List (SkyLine P)) (mos : SkyLine P) (oo exc : List (Option String)) (e : Unit)
    (hf : find_max_overlap ops debug mos (r :: rs) = .error e) :
    mosaicLoop ops debug (r :: rs) mos oo exc = .error e := by
  rw [mosaicLoop]
  simp only [hf]

theorem mosaicLoop_cons_none (ops : SphereOps P) (debug : Bool) (r : SkyLine P)
    (rs : List (SkyLine P)) (mos : SkyLine P) (oo exc : List (Option String)) (ar : ℚ)
    (hf : find_max_overlap ops debug mos (r :: rs) = .ok (none, ar)) :
    mosaicLoop ops debug (r :: rs) mos oo exc =
      .ok (mos, oo, exc ++ (r :: rs).map rough_id) := by
  rw [mosaicLoop]
  simp only [hf]

theorem mosaicLoop_cons_some_err (ops : SphereOps P) (debug : Bool) (r : SkyLine P)
    (rs : List (SkyLine P)) (mos : SkyLine P) (oo exc : List (Option String))
    (next : SkyLine P) (ar : ℚ) (e : Unit)
    (hf : find_max_overlap ops debug mos (r :: rs) = .ok (some next, ar))
    (ha : add_image ops mos next = .error e) :
    mosaicLoop ops debug (r :: rs) mos oo exc =
      if debug then
        mosaicLoop ops debug ((r :: rs).erase next) mos oo (exc ++ [rough_id next])
      else .error e := by
  have hmem : next ∈ r :: rs := find_max_overlap_mem hf
  rw [mosaicLoop]
  simp only [hf, dif_pos hmem, ha]

theorem mosaicLoop_cons_some_ok (ops : SphereOps P) (debug : Bool) (r : SkyLine P)
    (rs : List (SkyLine P)) (mos : SkyLine P) (oo exc : List (Option String))
    (next newmos : SkyLine P) (ar : ℚ)
    (hf : find_max_overlap ops debug mos (r :: rs) = .ok (some next, ar))
    (ha : add_image ops mos next = .ok newmos) :
    mosaicLoop ops debug (r :: rs) mos oo exc =
      mosaicLoop ops debug ((r :: rs).erase next) newmos (oo ++ [rough_id next]) exc := by
  have hmem : next ∈ r :: rs := find_max_overlap_mem hf
  rw [mosaicLoop]
  simp only [hf, dif_pos hmem, ha]

theorem mosaicLoop_exclude_all (ops : SphereOps P) (debug : Bool)
    (rem : List (SkyLine P)) (mos : SkyLine P) (oo exc : List (Option String))
    (hok : ∀ t ∈ rem, isOkE (ops.intersectionOp mos.polygon t.polygon) = true)
    (hle : ∀ t ∈ rem, interArea ops mos.polygon t.polygon ≤ 0) :
    mosaicLoop ops debug rem mos oo exc = .ok (mos, oo, exc ++ rem.map rough_id) := by
  cases rem with
  | nil => simpa using mosaicLoop_nil ops debug mos oo exc
  | cons r rs =>
    obtain ⟨x, ar, heq, _, hall, hcase⟩ :=
      find_max_overlap_go_max ops debug mos.polygon (r :: rs) none 0 hok (le_refl 0)
    have hx : x = none ∧ ar = 0 := by
      rcases hcase with ⟨h1, h2⟩ | ⟨t, ht, _, har, hlt⟩
      · exact ⟨h1, h2⟩
      · exact absurd hlt (not_lt.mpr (har ▸ hle t ht))
    obtain ⟨rfl, rfl⟩ := hx
    exact mosaicLoop_cons_none ops debug r rs mos oo exc 0 heq

theorem perm_shuffle1 {α : Type} [DecidableEq α] (u v l : List α) (x : α) :
    (((u ++ [x]) ++ v) ++ l).Perm ((u ++ v) ++ x :: l) := by
  apply List.perm_iff_count.mpr
  intro a
  simp only [List.count_append, List.count_cons, List.count_nil]
  omega

theorem perm_shuffle2 {α : Type} [DecidableEq α] (u v l : List α) (x : α) :
    ((u ++ (v ++ [x])) ++ l).Perm ((u ++ v) ++ x :: l) := by
  apply List.perm_iff_count.mpr
  intro a
  simp only [List.count_append, List.count_cons, List.count_nil]
  omega

theorem mosaicLoop_invariant (ops : SphereOps P) (debug : Bool) :
    ∀ (n : ℕ) (rem : List (SkyLine P)), rem.length ≤ n →
      ∀ (mos : SkyLine P) (oo exc : List (Option String)) (m : SkyLine P)
        (oo' exc' : List (Option String)),
      mosaicLoop ops debug rem mos oo exc = .ok (m, oo', exc') →
      (oo' ++ exc').Perm ((oo ++ exc) ++ rem.map rough_id) ∧ ∃ t, oo' = oo ++ t := by
  intro n
  induction n with
  | zero =>
    intro rem hlen mos oo exc m oo' exc' h
    have hrem : rem = [] := List.length_eq_zero.mp (Nat.le_zero.mp hlen)
    subst hrem
    rw [mosaicLoop_nil] at h
    obtain ⟨rfl, rfl, rfl⟩ : mos = m ∧ oo = oo' ∧ exc = exc' := by
      simpa using h
    exact ⟨by simp, ⟨[], by simp⟩⟩
  | succ n ih =>
    intro rem hlen mos oo exc m oo' exc' h
    cases rem with
    | nil =>
      rw [mosaicLoop_nil] at h
      obtain ⟨rfl, rfl, rfl⟩ : mos = m ∧ oo = oo' ∧ exc = exc' := by
        simpa using h
      exact ⟨by simp, ⟨[], by simp⟩⟩
    | cons r rs =>
      cases hf : find_max_overlap ops debug mos (r :: rs) with
      | error e =>
        rw [mosaicLoop_cons_err ops debug r rs mos oo exc e hf] at h
        cases h
      | ok pair =>
        obtain ⟨ns, ar⟩ := pair
        cases ns with
        | none =>
          rw [mosaicLoop_cons_none ops debug r rs mos oo exc ar hf] at h
          obtain ⟨rfl, rfl, rfl⟩ :
              mos = m ∧ oo = oo' ∧ exc ++ (r :: rs).map rough_id = exc' := by
            simpa using h
          exact ⟨by simp [List.append_assoc], ⟨[], by simp⟩⟩
        | some next =>
          have hmem : next ∈ r :: rs := find_max_overlap_mem hf
          have hlen' : ((r :: rs).erase next).length ≤ n := by
            rw [List.length_erase_of_mem hmem]
            simp only [List.length_cons] at hlen ⊢
            omega
          have hperm_rem : ((r :: rs).map rough_id).Perm
              (rough_id next :: ((r :: rs).erase next).map rough_id) :=
            (List.perm_cons_erase hmem).map rough_id
          cases ha : add_image ops mos next with
          | error e =>
            rw [mosaicLoop_cons_some_err ops debug r rs mos oo exc next ar e hf ha] at h
            by_cases hd : debug
            · rw [if_pos hd] at h
              obtain ⟨hp, t, ht⟩ := ih _ hlen' _ _ _ _ _ _ h
              refine ⟨?_, ⟨t, ht⟩⟩
              refine hp.trans ?_
              refine (perm_shuffle2 oo exc (((r :: rs).erase next).map rough_id)
                (rough_id next)).trans ?_
              exact List.Perm.append_left (oo ++ exc) hperm_rem.symm
            · rw [if_neg hd] at h
              cases h
          | ok newmos =>
            rw [mosaicLoop_cons_some_ok ops debug r rs mos oo exc next newmos ar hf ha] at h
            obtain ⟨hp, t, ht⟩ := ih _ hlen' _ _ _ _ _ _ h
            refine ⟨?_, ⟨rough_id next :: t, by simpa using ht⟩⟩
            refine hp.trans ?_
            refine (perm_shuffle1 oo exc (((r :: rs).erase next).map rough_id)
              (rough_id next)).trans ?_
            exact List.Perm.append_left (oo ++ exc) hperm_rem.symm

theorem mosaicLoopCount_le (ops : SphereOps P) (debug : Bool) :
    ∀ (n : ℕ) (rem : List (SkyLine P)), rem.length ≤ n →
      ∀ mos : SkyLine P, mosaicLoopCount ops debug rem mos ≤ rem.length := by
  intro n
  induction n with
  | zero =>
    intro rem hlen mos
    have hrem : rem = [] := List.length_eq_zero.mp (Nat.le_zero.mp hlen)
    subst hrem
    rw [mosaicLoopCount]
    exact Nat.zero_le _
  | succ n ih =>
    intro rem hlen mos
    cases rem with
    | nil =>
      rw [mosaicLoopCount]
      exact Nat.zero_le _
    | cons r rs =>
      rw [mosaicLoopCount]
      cases hf : find_max_overlap ops debug mos (r :: rs) with
      | error e => simp
      | ok pair =>
        obtain ⟨ns, ar⟩ := pair
        cases ns with
        | none => simp
        | some next =>
          have hmem : next ∈ r :: rs := find_max_overlap_mem hf
          have hlen' : ((r :: rs).erase next).length ≤ n := by
            rw [List.length_erase_of_mem hmem]
            simp only [List.length_cons] at hlen ⊢
            omega
          have herase : ((r :: rs).erase next).length = rs.length := by
            rw [List.length_erase_of_mem hmem]
            simp
          simp only [dif_pos hmem]
          cases ha : add_image ops mos next with
          | error e =>
            by_cases hd : debug
            · simp only [if_pos hd, List.length_cons]
              have := ih _ hlen' mos
              omega
            · simp only [if_neg hd, List.length_cons]
              omega
          | ok newmos =>
            simp only [List.length_cons]
            have := ih _ hlen' newmos
            omega

theorem pairwise_of_decomp {α : Type} {R : α → α → Prop} {l l1 l2 : List α} {c t : α}
    (hdec : l = l1 ++ c :: l2) (ht : t ∈ l2) (hp : l.Pairwise R) : R c t := by
  subst hdec
  exact (List.pairwise_cons.mp (List.pairwise_append.mp hp).2.1).1 t ht

/-! Claim theorems. -/

/-- C4: `find_max_overlap` scans the candidates in order; when no candidate
has positive overlap area it returns `(None, 0.0)`, and otherwise it returns
the first candidate (in scan order) achieving the maximal intersection area
— the candidate whose area is strictly greater than every earlier
candidate's and not exceeded later — together with that area (the strict `>`
comparison makes the first maximum win ties). -/
theorem find_max_overlap_spec (P : Type) [DecidableEq P] (ops : SphereOps P)
    (debug : Bool) (s : SkyLine P) :
    (∀ l : List (SkyLine P),
       (∀ t ∈ l, isOkE (ops.intersectionOp s.polygon t.polygon) = true) →
       (∀ t ∈ l, interArea ops s.polygon t.polygon ≤ 0) →
       find_max_overlap ops debug s l = .ok (none, 0)) ∧
    (∀ (l1 l2 : List (SkyLine P)) (c : SkyLine P),
       (∀ t ∈ l1 ++ c :: l2, isOkE (ops.intersectionOp s.polygon t.polygon) = true) →
       0 < interArea ops s.polygon c.polygon →
       (∀ t ∈ l1, interArea ops s.polygon t.polygon < interArea ops s.polygon c.polygon) →
       (∀ t ∈ l2, interArea ops s.polygon t.polygon ≤ interArea ops s.polygon c.polygon) →
       find_max_overlap ops debug s (l1 ++ c :: l2) =
         .ok (some c, interArea ops s.polygon c.polygon)) := by
  constructor
  · intro l hok hle
    exact find_max_overlap_go_stay ops debug s.polygon l none 0 hok (le_refl 0) hle
  · intro l1 l2 c hok hpos hlt1 hle2
    have hc : isOkE (ops.intersectionOp s.polygon c.polygon) = true :=
      hok c (List.mem_append_right _ (List.mem_cons_self _ _))
    have hok1 : ∀ t ∈ l1, isOkE (ops.intersectionOp s.polygon t.polygon) = true :=
      fun t ht => hok t (List.mem_append_left _ ht)
    have hok2 : ∀ t ∈ l2, isOkE (ops.intersectionOp s.polygon t.polygon) = true :=
      fun t ht => hok t (List.mem_append_right _ (List.mem_cons_of_mem _ ht))
    exact find_max_overlap_go_first ops debug s.polygon c l2 hc hok2 hle2 l1 none 0
      (le_refl 0) hpos hok1 hlt1

/-- C5: `max_overlap_pair` scans every ordered pair (each `i` against the
suffix `i+1:`); it returns `None` when every pairwise overlap is
non-positive, and otherwise returns a pair, in list order, achieving the
globally largest (positive) pairwise overlap area. -/
theorem max_overlap_pair_spec (P : Type) [DecidableEq P] (ops : SphereOps P)
    (debug : Bool) (l : List (SkyLine P))
    (hok : l.Pairwise (fun c t => isOkE (ops.intersectionOp c.polygon t.polygon) = true)) :
    (l.Pairwise (fun c t => interArea ops c.polygon t.polygon ≤ 0) →
       max_overlap_pair ops debug l = .ok none) ∧
    ((∃ i j : Fin l.length, i < j ∧
        0 < interArea ops (l.get i).polygon (l.get j).polygon) →
       ∃ A B l1 l2, max_overlap_pair ops debug l = .ok (some (A, some B)) ∧
         l = l1 ++ A :: l2 ∧ B ∈ l2 ∧ 0 < interArea ops A.polygon B.polygon ∧
         l.Pairwise (fun c t =>
           interArea ops c.polygon t.polygon ≤ interArea ops A.polygon B.polygon)) := by
  constructor
  · intro hle
    exact max_overlap_pair_go_stay ops debug l none 0 hok hle (le_refl 0)
  · intro hex
    rcases max_overlap_pair_go_max ops debug l none 0 hok (le_refl 0) with
      ⟨_, hpw⟩ | ⟨A, B, l1, l2, heq, hdec, hB, hlt, hpw⟩
    · obtain ⟨i, j, hij, hpos⟩ := hex
      exact absurd hpos (not_lt.mpr (List.pairwise_iff_get.mp hpw i j hij))
    · exact ⟨A, B, l1, l2, heq, hdec, hB, hlt, hpw⟩

/-- C6 (amended): `add_image` returns a new skyline whose polygon is the
geometry-library union and whose member list is `self.members` followed by
`other.members` with duplicates removed by Python `==` — which for
`SkyLineMember` is object identity, not the spec's value equality — first
occurrence order preserved; the inputs are not mutated (the embedding is a
pure construction of a fresh record). -/
theorem add_image_spec (P : Type) [DecidableEq P] (ops : SphereOps P)
    (A B : SkyLine P) (u : P) (hu : ops.unionOp A.polygon B.polygon = .ok u) :
    add_image ops A B = .ok ⟨u, setMembers (A.members ++ B.members)⟩ ∧
    (setMembers (A.members ++ B.members)).Nodup ∧
    (setMembers (A.members ++ B.members)).Sublist (A.members ++ B.members) ∧
    ∀ m, m ∈ setMembers (A.members ++ B.members) ↔ m ∈ A.members ++ B.members := by
  refine ⟨by simp [add_image, hu], setMembers_nodup _, setMembers_sublist _,
    fun m => mem_setMembers _ m⟩

/-- C6 counterexample: two value-equal members with distinct identities are
both kept by `add_image`, so deduplication is not by value equality as the
claim states. -/
theorem add_image_value_eq_counterexample :
    add_image finOps vA vB = .ok ⟨some {0, 1, 2}, [mV0, mV1]⟩ ∧
    memberValueEq mV0 mV1 ∧ mV0 ≠ mV1 := by
  refine ⟨by decide, by decide, by decide⟩

/-- C7: `find_intersection` returns a new skyline whose polygon is the
geometry-library intersection and whose members are exactly those of the
concatenated member lists whose own polygon intersects the resulting
intersection polygon; a result polygon without points (the non-overlapping
case) gives an empty member list regardless of the inputs' members; inputs
are not mutated (pure construction). -/
theorem find_intersection_spec (P : Type) [DecidableEq P] (ops : SphereOps P)
    (A B : SkyLine P) (e : P) (he : ops.intersectionOp A.polygon B.polygon = .ok e) :
    ∃ C, find_intersection ops A B = .ok C ∧ C.polygon = e ∧
      (ops.hasPointsOp e = false → C.members = []) ∧
      (∀ m, m ∈ C.members ↔ m ∈ A.members ++ B.members ∧
        ops.hasPointsOp e = true ∧ ops.intersectsPolyOp e m.polygon = true) := by
  refine ⟨⟨e, setMembers (find_members ops ⟨e, []⟩ (A.members ++ B.members))⟩,
    by simp [find_intersection, he], rfl, ?_, ?_⟩
  · intro hempty
    simp [find_members, hempty, setMembers, setMembersAux]
  · intro m
    rw [mem_setMembers]
    unfold find_members
    by_cases hp : ops.hasPointsOp e = true
    · simp only [hp, if_true, List.mem_filter, List.mem_append]
      tauto
    · simp [hp]

/-- C8 (amended): the `members` setter deduplicates by Python `==` — object
identity for `SkyLineMember`, not the spec's value equality — preserving
first-occurrence order (the result is the unique duplicate-free subsequence
of the input containing every element), and fails with an assertion error
when any element of the sequence is not a member. -/
theorem members_setter_spec (P : Type) [DecidableEq P] :
    (∀ vals : List (Member P),
       setMembersChecked (vals.map MemberArg.member) = .ok (setMembers vals) ∧
       (setMembers vals).Nodup ∧ (setMembers vals).Sublist vals ∧
       ∀ m, m ∈ setMembers vals ↔ m ∈ vals) ∧
    (∀ args : List (MemberArg P), MemberArg.nonMember ∈ args →
       setMembersChecked args = .error ()) := by
  constructor
  · intro vals
    exact ⟨setMembersLoop_map_member vals [], setMembers_nodup vals,
      setMembers_sublist vals, fun m => mem_setMembers vals m⟩
  · intro args h
    exact setMembersLoop_error args [] h

/-- C8 counterexample: two value-equal members with distinct identities are
both stored by the `members` setter, so deduplication is not by the claimed
value equality. -/
theorem members_setter_value_eq_counterexample :
    setMembers [mV0, mV1] = [mV0, mV1] ∧ memberValueEq mV0 mV1 ∧ mV0 ≠ mV1 := by
  refine ⟨by decide, by decide, by decide⟩

/-- C9: the `polygon` setter fails on a non-polygon value, and otherwise
stores a defensive copy — a fresh object whose value equals the assigned
polygon's, so mutating the passed-in object afterwards never changes the
skyline's stored polygon.  The copy semantics follow the spec (the polygon
module is not under src/). -/
theorem polygon_setter_defensive_copy :
    (∀ (V : Type) (h : PolyStore V), polygonSetter V h PolyArg.nonPoly = .error ()) ∧
    (∀ (V : Type) (h : PolyStore V) (a : ℕ) (h' : PolyStore V) (b : ℕ),
       a < h.nextAddr → polygonSetter V h (PolyArg.polyAddr a) = .ok (h', b) →
       h'.val b = h.val a ∧ ∀ w : V, (mutateAt V h' a w).val b = h.val a) := by
  constructor
  · intro V h; rfl
  · intro V h a h' b ha heq
    obtain ⟨h1, h2⟩ : (⟨h.nextAddr + 1, fun n => if n = h.nextAddr then h.val a else h.val n⟩ :
        PolyStore V) = h' ∧ h.nextAddr = b := by
      simpa [polygonSetter] using heq
    subst h1
    subst h2
    constructor
    · simp
    · intro w
      have hne : h.nextAddr ≠ a := by omega
      simp [mutateAt, hne]

/-- C1: if `max_overlap_pair` finds no overlapping pair, `mosaic` returns no
mosaic together with empty inclusion and exclusion lists; and when exactly
one pair (at positions `a < b`) overlaps, all other pairwise overlaps being
zero and the grown mosaic not overlapping any of the others, `mosaic`
returns that pair's union, an inclusion list holding exactly the two seeds'
identifiers, and an exclusion list holding the identifiers of the remaining
`n - 2` skylines. -/
theorem mosaic_seeding_spec (P : Type) [DecidableEq P] (ops : SphereOps P) (debug : Bool) :
    (∀ l : List (SkyLine P), max_overlap_pair ops debug l = .ok none →
       mosaic ops debug l = .ok (none, [], [])) ∧
    (∀ (l : List (SkyLine P)) (a b : Fin l.length) (u : P),
       a < b →
       l.Pairwise (fun c t => isOkE (ops.intersectionOp c.polygon t.polygon) = true) →
       0 < interArea ops (l.get a).polygon (l.get b).polygon →
       l.Pairwise (fun c t => (c = l.get a ∧ t = l.get b) ∨
         interArea ops c.polygon t.polygon = 0) →
       ops.unionOp (l.get a).polygon (l.get b).polygon = .ok u →
       (∀ t ∈ (l.erase (l.get a)).erase (l.get b),
          isOkE (ops.intersectionOp u t.polygon) = true ∧
          interArea ops u t.polygon ≤ 0) →
       mosaic ops debug l =
         .ok (some ⟨u, setMembers ((l.get a).members ++ (l.get b).members)⟩,
           [rough_id (l.get a), rough_id (l.get b)],
           ((l.erase (l.get a)).erase (l.get b)).map rough_id)) := by
  constructor
  · intro l h
    simp [mosaic, h]
  · intro l a b u hab hok hpos hzero hu hrem
    rcases max_overlap_pair_go_max ops debug l none 0 hok (le_refl 0) with
      ⟨_, hpw⟩ | ⟨A', B', l1, l2, heq, hdec, hB', hlt, _⟩
    · exact absurd hpos (not_lt.mpr (List.pairwise_iff_get.mp hpw a b hab))
    · have hz : (A' = l.get a ∧ B' = l.get b) ∨
          interArea ops A'.polygon B'.polygon = 0 :=
        @pairwise_of_decomp (SkyLine P)
          (fun c t => (c = l.get a ∧ t = l.get b) ∨ interArea ops c.polygon t.polygon = 0)
          l l1 l2 A' B' hdec hB' hzero
      obtain ⟨rfl, rfl⟩ : A' = l.get a ∧ B' = l.get b := by
        rcases hz with h | h
        · exact h
        · rw [h] at hlt
          exact absurd hlt (lt_irrefl 0)
      have hmop : max_overlap_pair ops debug l = .ok (some (l.get a, some (l.get b))) := heq
      have hadd : add_image ops (l.get a) (l.get b) =
          .ok ⟨u, setMembers ((l.get a).members ++ (l.get b).members)⟩ := by
        simp only [add_image, hu]
      have hloop := mosaicLoop_exclude_all ops debug ((l.erase (l.get a)).erase (l.get b))
        ⟨u, setMembers ((l.get a).members ++ (l.get b).members)⟩
        [rough_id (l.get a), rough_id (l.get b)] []
        (fun t ht => (hrem t ht).1) (fun t ht => (hrem t ht).2)
      simp only [mosaic, hmop, hadd, hloop, List.nil_append]

/-- C2: whenever the growing loop runs an iteration, the selected skyline is
removed from the remaining pool, shrinking it by exactly one element, so the
number of loop iterations is bounded by the pool size; in particular, after
a seed pair is found the loop runs at most `n - 2` iterations for `n` input
skylines. -/
theorem mosaic_loop_progress_bound (P : Type) [DecidableEq P] (ops : SphereOps P)
    (debug : Bool) :
    (∀ (s : SkyLine P) (l : List (SkyLine P)) (next : SkyLine P) (ar : ℚ),
       find_max_overlap ops debug s l = .ok (some next, ar) →
       next ∈ l ∧ (l.erase next).length + 1 = l.length) ∧
    (∀ (rem : List (SkyLine P)) (mos : SkyLine P),
       mosaicLoopCount ops debug rem mos ≤ rem.length) ∧
    (∀ (l : List (SkyLine P)) (A : SkyLine P) (oB : Option (SkyLine P)) (B : SkyLine P)
       (mos : SkyLine P),
       max_overlap_pair ops debug l = .ok (some (A, oB)) → oB = some B →
       mosaicLoopCount ops debug ((l.erase A).erase B) mos ≤ l.length - 2) := by
  refine ⟨?_, ?_, ?_⟩
  · intro s l next ar h
    have hmem : next ∈ l := find_max_overlap_mem h
    have hpos : 0 < l.length := List.length_pos.mpr (List.ne_nil_of_mem hmem)
    have hlen := List.length_erase_of_mem hmem
    exact ⟨hmem, by omega⟩
  · intro rem mos
    exact mosaicLoopCount_le ops debug rem.length rem (le_refl _) mos
  · intro l A oB B mos hmop hB
    obtain ⟨hA, hBmem⟩ := max_overlap_pair_pair_mem hmop
    have hBmem' : B ∈ l.erase A := hBmem B hB
    have h1 : (l.erase A).length = l.length - 1 := List.length_erase_of_mem hA
    have h2 : ((l.erase A).erase B).length = (l.erase A).length - 1 :=
      List.length_erase_of_mem hBmem'
    have h3 := mosaicLoopCount_le ops debug ((l.erase A).erase B).length
      ((l.erase A).erase B) (le_refl _) mos
    omega

/-- C3: a geometry error is recovered at exactly the two tolerant call
sites, gated by the debug flag: in `find_max_overlap` a failing candidate is
treated as zero overlap (equivalently, skipped) when the flag is on and
propagates when it is off; in the growing loop a failing `add_image` records
the candidate's identifier in the exclusion list and leaves the mosaic
unchanged when the flag is on, and propagates — aborting the loop — when it
is off. -/
theorem geometry_error_recovery (P : Type) [DecidableEq P] (ops : SphereOps P) :
    (∀ (s : SkyLine P) (l1 l2 : List (SkyLine P)) (t : SkyLine P),
       isOkE (ops.intersectionOp s.polygon t.polygon) = false →
       find_max_overlap ops true s (l1 ++ t :: l2) =
         find_max_overlap ops true s (l1 ++ l2)) ∧
    (∀ (s : SkyLine P) (l : List (SkyLine P)),
       (∃ t ∈ l, isOkE (ops.intersectionOp s.polygon t.polygon) = false) →
       find_max_overlap ops false s l = .error ()) ∧
    (∀ (r : SkyLine P) (rs : List (SkyLine P)) (mos : SkyLine P)
       (oo exc : List (Option String)) (next : SkyLine P) (ar : ℚ) (e : Unit),
       find_max_overlap ops true mos (r :: rs) = .ok (some next, ar) →
       add_image ops mos next = .error e →
       mosaicLoop ops true (r :: rs) mos oo exc =
         mosaicLoop ops true ((r :: rs).erase next) mos oo (exc ++ [rough_id next])) ∧
    (∀ (r : SkyLine P) (rs : List (SkyLine P)) (mos : SkyLine P)
       (oo exc : List (Option String)) (next : SkyLine P) (ar : ℚ) (e : Unit),
       find_max_overlap ops false mos (r :: rs) = .ok (some next, ar) →
       add_image ops mos next = .error e →
       mosaicLoop ops false (r :: rs) mos oo exc = .error e) := by
  refine ⟨?_, ?_, ?_, ?_⟩
  · intro s l1 l2 t ht
    exact find_max_overlap_go_skip ops s.polygon t ht l1 l2 none 0
  · intro s l h
    exact find_max_overlap_go_err ops s.polygon l none 0 h
  · intro r rs mos oo exc next ar e hf ha
    rw [mosaicLoop_cons_some_err ops true r rs mos oo exc next ar e hf ha]
    simp
  · intro r rs mos oo exc next ar e hf ha
    rw [mosaicLoop_cons_some_err ops false r rs mos oo exc next ar e hf ha]
    simp

/-- C10 (implicit invariant): whenever `mosaic` finds a seed pair, the
returned inclusion and exclusion lists together hold exactly the identifiers
of all input skylines, one occurrence per input, and the inclusion list
opens with the two seeds' identifiers. -/
theorem mosaic_partition_invariant (P : Type) [DecidableEq P] (ops : SphereOps P)
    (debug : Bool) (l : List (SkyLine P)) (m : SkyLine P)
    (inc exc : List (Option String))
    (h : mosaic ops debug l = .ok (some m, inc, exc)) :
    (inc ++ exc).Perm (l.map rough_id) ∧
    ∃ s1 s2 rest, inc = rough_id s1 :: rough_id s2 :: rest ∧
      s1 ∈ l ∧ s2 ∈ l.erase s1 := by
  cases hmop : max_overlap_pair ops debug l with
  | error e => simp [mosaic, hmop] at h
  | ok pr =>
    cases pr with
    | none => simp [mosaic, hmop] at h
    | some pair =>
      obtain ⟨s1, os2⟩ := pair
      cases os2 with
      | none => simp [mosaic, hmop] at h
      | some s2 =>
        obtain ⟨hs1, hs2all⟩ := max_overlap_pair_pair_mem hmop
        have hs2 : s2 ∈ l.erase s1 := hs2all s2 rfl
        cases hadd : add_image ops s1 s2 with
        | error e => simp [mosaic, hmop, hadd] at h
        | ok mos0 =>
          cases hloop : mosaicLoop ops debug ((l.erase s1).erase s2) mos0
              [rough_id s1, rough_id s2] [] with
          | error e => simp [mosaic, hmop, hadd, hloop] at h
          | ok res =>
            obtain ⟨m', oo', exc'⟩ := res
            obtain ⟨h1, h2, h3⟩ : m' = m ∧ oo' = inc ∧ exc' = exc := by
              simpa [mosaic, hmop, hadd, hloop] using h
            subst h1
            subst h2
            subst h3
            obtain ⟨hperm, t, ht⟩ := mosaicLoop_invariant ops debug
              ((l.erase s1).erase s2).length ((l.erase s1).erase s2) (le_refl _)
              mos0 [rough_id s1, rough_id s2] [] _ _ _ hloop
            constructor
            · refine hperm.trans ?_
              have p1 : (l.map rough_id).Perm
                  (rough_id s1 :: (l.erase s1).map rough_id) :=
                (List.perm_cons_erase hs1).map rough_id
              have p2 : ((l.erase s1).map rough_id).Perm
                  (rough_id s2 :: ((l.erase s1).erase s2).map rough_id) :=
                (List.perm_cons_erase hs2).map rough_id
              refine List.Perm.symm ?_
              refine p1.trans ?_
              refine (p2.cons (rough_id s1)).trans ?_
              simp
            · exact ⟨s1, s2, t, by simpa using ht, hs1, hs2⟩

/-! Witnesses: each claim theorem with hypotheses applied at concrete
inputs, all hypotheses discharged by evaluation. -/

/-- Witness for C1: three disjoint skylines give no mosaic and empty lists;
`oA`/`oB` overlapping with `oC` disjoint give the pair's union, the two
seeds included, `oC` excluded. -/
theorem mosaic_seeding_spec_witness :
    mosaic finOps true [dA, dB, dC] = .ok (none, [], []) ∧
    mosaic finOps true [oA, oB, oC] =
      .ok (some ⟨some {0, 1, 2}, setMembers (oA.members ++ oB.members)⟩,
        [rough_id oA, rough_id oB],
        (([oA, oB, oC].erase oA).erase oB).map rough_id) := by
  constructor
  · exact (mosaic_seeding_spec FP finOps true).1 [dA, dB, dC] (by decide)
  · exact (mosaic_seeding_spec FP finOps true).2 [oA, oB, oC] ⟨0, by decide⟩ ⟨1, by decide⟩
      (some {0, 1, 2}) (by decide) (by decide) (by decide) (by decide) (by decide)
      (by decide)

/-- Witness for C2 at concrete inputs. -/
theorem mosaic_loop_progress_bound_witness :
    (t1 ∈ [t1, t2, t3] ∧ ([t1, t2, t3].erase t1).length + 1 = [t1, t2, t3].length) ∧
    mosaicLoopCount finOps true [dB] dA ≤ [dB].length ∧
    mosaicLoopCount finOps true (([oA, oB, oC].erase oA).erase oB) dA ≤
      [oA, oB, oC].length - 2 := by
  refine ⟨?_, ?_, ?_⟩
  · exact (mosaic_loop_progress_bound FP finOps true).1 tS [t1, t2, t3] t1 5 (by decide)
  · exact (mosaic_loop_progress_bound FP finOps true).2.1 [dB] dA
  · exact (mosaic_loop_progress_bound FP finOps true).2.2 [oA, oB, oC] oA (some oB) oB dA
      (by decide) rfl

/-- Witness for C3: a corrupt candidate is skipped in tolerant mode and
aborts the scan otherwise; a failing union excludes the candidate in
tolerant mode and aborts the loop otherwise. -/
theorem geometry_error_recovery_witness :
    find_max_overlap finOps true oA [sBad, oB] = find_max_overlap finOps true oA [oB] ∧
    find_max_overlap finOps false oA [sBad] = .error () ∧
    mosaicLoop finOpsU true [oB] oA [] [] =
      mosaicLoop finOpsU true ([oB].erase oB) oA [] ([] ++ [rough_id oB]) ∧
    mosaicLoop finOpsU false [oB] oA [] [] = .error () := by
  refine ⟨?_, ?_, ?_, ?_⟩
  · exact (geometry_error_recovery FP finOps).1 oA [] [oB] sBad (by decide)
  · exact (geometry_error_recovery FP finOps).2.1 oA [sBad] (by decide)
  · exact (geometry_error_recovery FP finOpsU).2.2.1 oB [] oA [] [] oB 1 ()
      (by decide) (by decide)
  · exact (geometry_error_recovery FP finOpsU).2.2.2 oB [] oA [] [] oB 1 ()
      (by decide) (by decide)

/-- Witness for C4: no-overlap candidates give `(None, 0.0)`; overlap areas
`[5, 5, 3]` return the first candidate achieving 5. -/
theorem find_max_overlap_spec_witness :
    find_max_overlap finOps true dA [dB, dC] = .ok (none, 0) ∧
    find_max_overlap finOps true tS [t1, t2, t3] = .ok (some t1, 5) := by
  constructor
  · exact (find_max_overlap_spec FP finOps true dA).1 [dB, dC] (by decide) (by decide)
  · have h := (find_max_overlap_spec FP finOps true tS).2 [] [t2, t3] t1
      (by decide) (by decide) (by decide) (by decide)
    have he : interArea finOps tS.polygon t1.polygon = 5 := by decide
    rw [he] at h
    exact h

/-- Witness for C5: three pairwise-disjoint skylines give `None`; an
overlapping configuration returns a maximal pair. -/
theorem max_overlap_pair_spec_witness :
    max_overlap_pair finOps true [dA, dB, dC] = .ok none ∧
    ∃ A B l1 l2, max_overlap_pair finOps true [oA, oB, oC] = .ok (some (A, some B)) ∧
      [oA, oB, oC] = l1 ++ A :: l2 ∧ B ∈ l2 ∧ 0 < interArea finOps A.polygon B.polygon ∧
      [oA, oB, oC].Pairwise (fun c t =>
        interArea finOps c.polygon t.polygon ≤ interArea finOps A.polygon B.polygon) := by
  constructor
  · exact (max_overlap_pair_spec FP finOps true [dA, dB, dC] (by decide)).1 (by decide)
  · exact (max_overlap_pair_spec FP finOps true [oA, oB, oC] (by decide)).2 (by decide)

/-- Witness for C6 (amended) at concrete skylines. -/
theorem add_image_spec_witness :
    add_image finOps oA oB = .ok ⟨some {0, 1, 2}, setMembers (oA.members ++ oB.members)⟩ ∧
    (setMembers (oA.members ++ oB.members)).Nodup ∧
    (setMembers (oA.members ++ oB.members)).Sublist (oA.members ++ oB.members) ∧
    ∀ m, m ∈ setMembers (oA.members ++ oB.members) ↔ m ∈ oA.members ++ oB.members :=
  add_image_spec FP finOps oA oB (some {0, 1, 2}) (by decide)

/-- Witness for C7: two disjoint footprints intersect to an empty polygon
and an empty member list. -/
theorem find_intersection_spec_witness :
    ∃ C, find_intersection finOps dA dB = .ok C ∧ C.polygon = some ∅ ∧
      (finOps.hasPointsOp (some ∅) = false → C.members = []) ∧
      (∀ m, m ∈ C.members ↔ m ∈ dA.members ++ dB.members ∧
        finOps.hasPointsOp (some ∅) = true ∧
        finOps.intersectsPolyOp (some ∅) m.polygon = true) :=
  find_intersection_spec FP finOps dA dB (some ∅) (by decide)

/-- Witness for C8 (amended): `[A, B, A, C]` is stored as `[A, B, C]`, and a
non-member element makes the setter fail. -/
theorem members_setter_spec_witness :
    (setMembersChecked ([mW0, mW1, mW0, mW2].map MemberArg.member) =
       .ok (setMembers [mW0, mW1, mW0, mW2]) ∧
     (setMembers [mW0, mW1, mW0, mW2]).Nodup ∧
     (setMembers [mW0, mW1, mW0, mW2]).Sublist [mW0, mW1, mW0, mW2] ∧
     ∀ m, m ∈ setMembers [mW0, mW1, mW0, mW2] ↔ m ∈ [mW0, mW1, mW0, mW2]) ∧
    setMembers [mW0, mW1, mW0, mW2] = [mW0, mW1, mW2] ∧
    setMembersChecked [MemberArg.member mW0, MemberArg.nonMember] = .error () := by
  refine ⟨(members_setter_spec FP).1 [mW0, mW1, mW0, mW2], by decide,
    (members_setter_spec FP).2 [MemberArg.member mW0, MemberArg.nonMember] (by decide)⟩

/-- Witness for C9 on a concrete store: the setter rejects a non-polygon,
and mutating the original object does not change the stored copy. -/
theorem polygon_setter_defensive_copy_witness :
    polygonSetter ℕ st0 PolyArg.nonPoly = .error () ∧
    (mutateAt ℕ st1 0 9).val 1 = some 5 := by
  constructor
  · exact polygon_setter_defensive_copy.1 ℕ st0
  · exact (polygon_setter_defensive_copy.2 ℕ st0 0 st1 1 (by decide) rfl).2 9

/-- Witness for C10 on a concrete mosaic run: the identifier lists partition
the inputs' identifiers and open with the seeds. -/
theorem mosaic_partition_invariant_witness :
    (([rough_id oA, rough_id oB] ++ [rough_id oC]).Perm ([oA, oB, oC].map rough_id)) ∧
    ∃ s1 s2 rest, [rough_id oA, rough_id oB] = rough_id s1 :: rough_id s2 :: rest ∧
      s1 ∈ [oA, oB, oC] ∧ s2 ∈ [oA, oB, oC].erase s1 := by
  have hmop : max_overlap_pair finOps true [oA, oB, oC] = .ok (some (oA, some oB)) := by
    decide
  have hadd : add_image finOps oA oB = .ok mosM := by decide
  have herase : ([oA, oB, oC].erase oA).erase oB = [oC] := by decide
  have hloop : mosaicLoop finOps true [oC] mosM [rough_id oA, rough_id oB] [] =
      .ok (mosM, [rough_id oA, rough_id oB], [] ++ [oC].map rough_id) :=
    mosaicLoop_exclude_all finOps true [oC] mosM [rough_id oA, rough_id oB] []
      (by decide) (by decide)
  have hmosaic : mosaic finOps true [oA, oB, oC] =
      .ok (some mosM, [rough_id oA, rough_id oB], [rough_id oC]) := by
    simp only [mosaic, hmop, hadd, herase, hloop]
    simp [rough_id, oC]
  exact mosaic_partition_invariant FP finOps true [oA, oB, oC] mosM
    [rough_id oA, rough_id oB] [rough_id oC] hmosaic

end Skyline
